import Mathlib

/-
  Verification development for the hemisphere test of dmriprep/utils.py.

  The two functions under study are is_hemispherical (a geometric predicate on
  a list of unit vectors) and is_bval_bvec_hemispherical (an argument-checking
  wrapper that delegates to it).  Machine floating point is modelled by exact
  real arithmetic; the two places where IEEE semantics is observable in the
  algorithm are modelled explicitly: division of a zero cross product by its
  zero norm yields a NaN row whose arccos comparison is always False (Option,
  none standing for a NaN row), and numpy.arccos of a dot product outside the
  interval from -1 to 1 is NaN, so its comparison is False as well (a domain
  condition inside the pass test).
-/

namespace PreAFQ

/-- A 3-component real vector, one row of the (N, 3) input array. -/
abbrev Vec3 : Type := ℝ × ℝ × ℝ

/-- Conversion of one row of the input array (a list of reals) into a Vec3.
Rows of a validated (N, 3) array have exactly three entries. -/
def toVec3 (r : List ℝ) : Vec3 := (r.getD 0 0, r.getD 1 0, r.getD 2 0)

/-- Euclidean dot product of two 3-vectors, as in numpy.dot. -/
def dot (a b : Vec3) : ℝ := a.1 * b.1 + a.2.1 * b.2.1 + a.2.2 * b.2.2

/-- Cross product of two 3-vectors, as in numpy.cross. -/
def cross (a b : Vec3) : Vec3 :=
  (a.2.1 * b.2.2 - a.2.2 * b.2.1, a.2.2 * b.1 - a.1 * b.2.2, a.1 * b.2.1 - a.2.1 * b.1)

/-- Euclidean norm of a 3-vector, numpy.linalg.norm of one row. -/
noncomputable def norm3 (a : Vec3) : ℝ := Real.sqrt (dot a a)

/-- Scalar multiple of a 3-vector. -/
def smul (t : ℝ) (a : Vec3) : Vec3 := (t * a.1, t * a.2.1, t * a.2.2)

/-- Componentwise sum of two 3-vectors. -/
def vadd (a b : Vec3) : Vec3 := (a.1 + b.1, a.2.1 + b.2.1, a.2.2 + b.2.2)

/-- Componentwise sum of a list of 3-vectors. -/
def sumV (l : List Vec3) : Vec3 := l.foldr vadd (0, 0, 0)

/-- numpy.mean over axis 0: the componentwise sum divided by the number of rows. -/
noncomputable def meanV (l : List Vec3) : Vec3 := smul ((l.length : ℝ))⁻¹ (sumV l)

/-- numpy.linalg.norm of one row of the raw input array (square root of the
sum of the squares of its entries). -/
noncomputable def normRow (r : List ℝ) : ℝ := Real.sqrt ((r.map fun x => x ^ 2).sum)

/-- The unit-norm validation of utils.py line 44:
numpy.allclose(1, norms, atol) with the numpy default rtol = 1e-5, that is,
every norm x satisfies the elementwise bound of numpy.isclose with a = 1 and
b = x, namely the absolute difference of 1 and x is at most atol + rtol * abs x. -/
def allcloseOne (xs : List ℝ) (atol : ℝ) : Prop :=
  ∀ x ∈ xs, |1 - x| ≤ atol + 1 / 100000 * |x|

/-- The default tolerance of is_hemispherical, written 10e-4 in the source,
that is 10 * 10 ^ (-4) = 1 / 1000. -/
noncomputable def defaultAtol : ℝ := 10 / 10 ^ 4

/-- itertools.permutations(vecs, 2) of utils.py line 48: every ordered pair of
entries taken at two distinct positions, in lexicographic position order.
Positions are paired through List.range so that duplicate entries are paired by
position exactly as the Python generator does. -/
def orderedPairs (l : List Vec3) : List (Vec3 × Vec3) :=
  (List.range l.length).flatMap fun i =>
    ((List.range l.length).filter fun j => j != i).map fun j =>
      (l.getD i (0, 0, 0), l.getD j (0, 0, 0))

/-- Normalization of one cross product row, utils.py line 52.  When the norm
is zero the numpy division produces a NaN row; that row is modelled as none.
Any nonzero cross product is divided by its (positive) norm. -/
noncomputable def normalizeOpt (c : Vec3) : Option Vec3 :=
  if norm3 c = 0 then none else some (smul (norm3 c)⁻¹ c)

/-- The pass test of utils.py lines 57 to 60 for one candidate row against one
input vector: arccos of the dot product is at most pi / 2.  A NaN candidate row
(none) fails every comparison, exactly as NaN <= pi/2 is False in IEEE
arithmetic.  numpy.arccos likewise returns NaN when its argument lies outside
the interval from -1 to 1 (the source does not clamp, and the tolerance of the
validation admits input norms above 1, so dot products above 1 are reachable);
the test therefore demands the domain condition abs of the dot at most 1, and
within that domain Mathlib arccos agrees with numpy.arccos, so the comparison
is the one of the source. -/
def passTest (copt : Option Vec3) (v : Vec3) : Prop :=
  match copt with
  | none => False
  | some c => |dot c v| ≤ 1 ∧ Real.arccos (dot c v) ≤ Real.pi / 2

/-- The pass test and the allclose test compare real numbers, which is not
algorithmically decidable; the branching of the source is modelled with the
classical decidability of these propositions. -/
noncomputable instance (copt : Option Vec3) (v : Vec3) : Decidable (passTest copt v) :=
  Classical.propDecidable _

noncomputable instance (xs : List ℝ) (atol : ℝ) : Decidable (allcloseOne xs atol) :=
  Classical.propDecidable _

/-- numpy.sum(dot_prod_test.astype(int), axis=1) for one candidate row,
utils.py line 64: the number of input vectors the candidate passes against. -/
noncomputable def passCount (vecs : List Vec3) (copt : Option Vec3) : ℕ :=
  (vecs.map fun v => if passTest copt v then 1 else 0).sum

/-- The list of normalized candidate cross products, utils.py lines 48 to 52,
one entry per ordered pair of distinct positions. -/
noncomputable def candList (vecs : List Vec3) : List (Option Vec3) :=
  (orderedPairs vecs).map fun pr => normalizeOpt (cross pr.1 pr.2)

/-- cross_prods[numpy.sum(dot_prod_test, axis=1) == len(vecs)], utils.py
line 67: the candidates whose pass count equals the number of input vectors. -/
noncomputable def vertexList (vecs : List Vec3) : List (Option Vec3) :=
  (candList vecs).filter fun c => decide (passCount vecs c = vecs.length)

/-- is_hemi of utils.py line 64: len(vecs) is a member of the per-candidate
pass-count array. -/
noncomputable def hemiVerdict (vecs : List Vec3) : Bool :=
  decide (vecs.length ∈ (candList vecs).map (passCount vecs))

/-- The pole of the true branch, utils.py lines 68 to 69: the mean of the
vertex candidates, divided by its own norm (none models the NaN rows produced
when that norm is zero).  Vertex rows are never NaN here because a NaN row has
pass count zero while a vertex must pass against every vector, so the getD
default is never read in the reachable cases. -/
noncomputable def poleOf (vecs : List Vec3) : Option Vec3 :=
  normalizeOpt (meanV ((vertexList vecs).map fun o => o.getD (0, 0, 0)))

/-- The pole returned by is_hemispherical, utils.py lines 66 to 71: the
renormalized vertex mean in the true branch, the zero vector otherwise. -/
noncomputable def hemiPole (vecs : List Vec3) : Option Vec3 :=
  if hemiVerdict vecs then poleOf vecs else some (0, 0, 0)

/-- The failure modes of the two functions.  The source raises ValueError in
every case; the spec names them InvalidDimensionError, NotUnitVectorError and
InvalidArgumentCombinationError, and unpackError is the ValueError raised by
the tuple unpacking of zip(*[]) on line 48 when fewer than two vectors are
given (the list comprehension over itertools.permutations is then empty). -/
inductive HemiError where
  | dimError
  | notUnitError
  | unpackError
  | argCombError
  deriving DecidableEq

/-- is_hemispherical of utils.py lines 15 to 72.  The argument d is the second
component of the shape of the input array (the uniform row length) and rows
are its rows.  Validation order follows the source: the dimension check of
line 42, the unit-norm check of line 44, then the pair generation of line 48,
which raises when it yields no pairs.  The result pairs the boolean verdict of
line 64 with the pole of lines 66 to 71. -/
noncomputable def is_hemispherical (d : ℕ) (rows : List (List ℝ)) (atol : ℝ) :
    Except HemiError (Bool × Option Vec3) :=
  if d ≠ 3 then .error .dimError
  else if ¬ allcloseOne (rows.map normRow) atol then .error .notUnitError
  else if (orderedPairs (rows.map toVec3)).isEmpty then .error .unpackError
  else .ok (hemiVerdict (rows.map toVec3), hemiPole (rows.map toVec3))

/-- The external DIPY gradient table, reduced to the three features the
wrapper reads: the column count of the bvecs array (always 3 for DIPY), the
bvecs rows, and the boolean b0 mask. -/
structure GradientTable where
  bvecsDim : ℕ
  bvecs : List (List ℝ)
  b0s_mask : List Bool

/-- gtab.bvecs[~gtab.b0s_mask], utils.py line 116: the bvecs rows at the
positions where the b0 mask is false. -/
def nonB0Bvecs (g : GradientTable) : List (List ℝ) :=
  ((g.bvecs.zip g.b0s_mask).filter fun p => !p.2).map Prod.fst

/-- is_bval_bvec_hemispherical of utils.py lines 75 to 116.  The external
loader dipy.core.gradients.gradient_table is abstracted as the function
argument gradient_table over an arbitrary path type P (the source never
inspects the path strings, it only forwards them).  The source raises when
gtab is None and either file argument is None, and also when gtab is given and
either file argument is not None; otherwise it calls is_hemispherical on the
non-b0 rows of the (eventually loaded) table. -/
noncomputable def is_bval_bvec_hemispherical {P : Type} (gradient_table : P → P → GradientTable)
    (gtab : Option GradientTable) (bval_file bvec_file : Option P) (atol : ℝ) :
    Except HemiError (Bool × Option Vec3) :=
  match gtab with
  | none =>
    match bval_file, bvec_file with
    | some bval, some bvec =>
        is_hemispherical (gradient_table bval bvec).bvecsDim
          (nonB0Bvecs (gradient_table bval bvec)) atol
    | _, _ => .error .argCombError
  | some g =>
    match bval_file, bvec_file with
    | none, none => is_hemispherical g.bvecsDim (nonB0Bvecs g) atol
    | _, _ => .error .argCombError

/-! General lemmas about the embedded operations. -/

lemma norm3_zero : norm3 ((0 : ℝ), (0 : ℝ), (0 : ℝ)) = 0 := by
  simp [norm3, dot]

lemma normalizeOpt_zero : normalizeOpt (0, 0, 0) = none := by
  unfold normalizeOpt
  rw [if_pos norm3_zero]

lemma normalizeOpt_unit {c : Vec3} (h : norm3 c = 1) : normalizeOpt c = some c := by
  simp [normalizeOpt, h, smul]

/-- A real candidate row passes against v exactly when the dot product lies in
the interval from 0 to 1: nonnegative so that the angle is at most pi / 2, and
at most 1 so that numpy.arccos returns a number rather than NaN. -/
lemma passTest_some_iff (c v : Vec3) : passTest (some c) v ↔ 0 ≤ dot c v ∧ dot c v ≤ 1 := by
  simp only [passTest]
  constructor
  · rintro ⟨hdom, harc⟩
    exact ⟨Real.arccos_le_pi_div_two.mp harc, (abs_le.mp hdom).2⟩
  · rintro ⟨h0, h1⟩
    exact ⟨abs_le.mpr ⟨by linarith, h1⟩, Real.arccos_le_pi_div_two.mpr h0⟩

lemma passCount_none (vecs : List Vec3) : passCount vecs none = 0 := by
  simp [passCount, passTest]

lemma passCount_le (vecs : List Vec3) (c : Option Vec3) : passCount vecs c ≤ vecs.length := by
  induction vecs with
  | nil => simp [passCount]
  | cons v vs ih =>
    simp only [passCount, List.map_cons, List.sum_cons, List.length_cons] at *
    split <;> omega

/-- The pass count reaches the number of input vectors exactly when the
candidate passes against every input vector. -/
lemma passCount_eq_length_iff (vecs : List Vec3) (c : Option Vec3) :
    passCount vecs c = vecs.length ↔ ∀ v ∈ vecs, passTest c v := by
  induction vecs with
  | nil => simp [passCount]
  | cons v vs ih =>
    have hle := passCount_le vs c
    simp only [passCount, List.map_cons, List.sum_cons, List.length_cons, List.mem_cons] at *
    constructor
    · intro h
      split at h
      · intro x hx
        rcases hx with rfl | hx
        · assumption
        · exact (ih.mp (by omega)) x hx
      · omega
    · intro h
      rw [if_pos (h v (Or.inl rfl))]
      have := ih.mpr fun x hx => h x (Or.inr hx)
      omega

end PreAFQ

/-! Position-pair membership: itertools.permutations pairs entries at distinct
positions, so membership in orderedPairs is equivalent to the existence of two
distinct positions holding the two components; that description is invariant
under permutation of the list. -/

namespace ListAux

variable {α : Type}

lemma getElem?_eq_some_getD {l : List α} {i : ℕ} (z : α) (h : i < l.length) :
    l[i]? = some (l.getD i z) := by
  rw [List.getD_eq_getElem?_getD, List.getElem?_eq_getElem h]
  rfl

lemma mem_of_getElem?_eq {l : List α} {i : ℕ} {a : α} (h : l[i]? = some a) : a ∈ l := by
  obtain ⟨hi, hg⟩ := List.getElem?_eq_some_iff.mp h
  exact hg ▸ List.getElem_mem hi

lemma duplicate_iff_exists_distinct (l : List α) (a : α) :
    l.Duplicate a ↔ ∃ i j : ℕ, i ≠ j ∧ l[i]? = some a ∧ l[j]? = some a := by
  induction l with
  | nil => simp
  | cons y ys ih =>
    rw [List.duplicate_cons_iff, ih]
    constructor
    · rintro (⟨rfl, ha⟩ | ⟨i, j, hij, h1, h2⟩)
      · obtain ⟨k, hk⟩ := List.mem_iff_getElem?.mp ha
        exact ⟨0, k + 1, by omega, by simp, by simpa using hk⟩
      · exact ⟨i + 1, j + 1, by omega, by simpa using h1, by simpa using h2⟩
    · rintro ⟨i, j, hij, h1, h2⟩
      match i, j with
      | 0, 0 => omega
      | 0, j + 1 =>
        left
        simp only [List.getElem?_cons_zero, Option.some.injEq] at h1
        simp only [List.getElem?_cons_succ] at h2
        exact ⟨h1, ListAux.mem_of_getElem?_eq h2⟩
      | i + 1, 0 =>
        left
        simp only [List.getElem?_cons_zero, Option.some.injEq] at h2
        simp only [List.getElem?_cons_succ] at h1
        exact ⟨h2, ListAux.mem_of_getElem?_eq h1⟩
      | i + 1, j + 1 =>
        right
        simp only [List.getElem?_cons_succ] at h1 h2
        exact ⟨i, j, by omega, h1, h2⟩

lemma exists_distinct_pair_ne {l : List α} {a b : α} (hab : a ≠ b) :
    (∃ i j : ℕ, i ≠ j ∧ l[i]? = some a ∧ l[j]? = some b) ↔ a ∈ l ∧ b ∈ l := by
  constructor
  · rintro ⟨i, j, _, h1, h2⟩
    exact ⟨ListAux.mem_of_getElem?_eq h1, ListAux.mem_of_getElem?_eq h2⟩
  · rintro ⟨ha, hb⟩
    obtain ⟨i, hi⟩ := List.mem_iff_getElem?.mp ha
    obtain ⟨j, hj⟩ := List.mem_iff_getElem?.mp hb
    refine ⟨i, j, fun h => hab ?_, hi, hj⟩
    rw [h, hj] at hi
    exact (Option.some.inj hi).symm

lemma exists_distinct_pair_perm [DecidableEq α] {l l' : List α} (h : l.Perm l') (a b : α) :
    (∃ i j : ℕ, i ≠ j ∧ l[i]? = some a ∧ l[j]? = some b) ↔
      (∃ i j : ℕ, i ≠ j ∧ l'[i]? = some a ∧ l'[j]? = some b) := by
  by_cases hab : a = b
  · subst hab
    rw [← duplicate_iff_exists_distinct, ← duplicate_iff_exists_distinct,
      List.duplicate_iff_two_le_count, List.duplicate_iff_two_le_count, h.count_eq]
  · rw [exists_distinct_pair_ne hab, exists_distinct_pair_ne hab, h.mem_iff, h.mem_iff]

end ListAux

namespace PreAFQ

lemma mem_orderedPairs (l : List Vec3) (a b : Vec3) :
    (a, b) ∈ orderedPairs l ↔ ∃ i j : ℕ, i ≠ j ∧ l[i]? = some a ∧ l[j]? = some b := by
  simp only [orderedPairs, List.mem_flatMap, List.mem_range, List.mem_map, List.mem_filter,
    bne_iff_ne, Prod.mk.injEq]
  constructor
  · rintro ⟨i, hi, j, ⟨hj, hne⟩, ha, hb⟩
    refine ⟨i, j, fun h => hne (by omega), ?_, ?_⟩
    · rw [ListAux.getElem?_eq_some_getD (0, 0, 0) hi, ha]
    · rw [ListAux.getElem?_eq_some_getD (0, 0, 0) hj, hb]
  · rintro ⟨i, j, hne, ha, hb⟩
    obtain ⟨hi, hgi⟩ := List.getElem?_eq_some_iff.mp ha
    obtain ⟨hj, hgj⟩ := List.getElem?_eq_some_iff.mp hb
    refine ⟨i, hi, j, ⟨hj, fun h => hne (by omega)⟩, ?_, ?_⟩
    · rw [← hgi]
      have := ListAux.getElem?_eq_some_getD (l := l) (0, 0, 0) hi
      rw [List.getElem?_eq_getElem hi] at this
      exact (Option.some.injEq _ _ ▸ this).symm
    · rw [← hgj]
      have := ListAux.getElem?_eq_some_getD (l := l) (0, 0, 0) hj
      rw [List.getElem?_eq_getElem hj] at this
      exact (Option.some.injEq _ _ ▸ this).symm

lemma mem_orderedPairs_perm {l l' : List Vec3} (h : l.Perm l') (a b : Vec3) :
    (a, b) ∈ orderedPairs l ↔ (a, b) ∈ orderedPairs l' := by
  rw [mem_orderedPairs, mem_orderedPairs]
  exact ListAux.exists_distinct_pair_perm h a b

end PreAFQ

namespace PreAFQ

/-- The verdict bit is true exactly when some ordered pair yields a candidate
passing against every input vector. -/
lemma hemiVerdict_true_iff (vecs : List Vec3) :
    hemiVerdict vecs = true ↔
      ∃ pr ∈ orderedPairs vecs, ∀ v ∈ vecs, passTest (normalizeOpt (cross pr.1 pr.2)) v := by
  simp only [hemiVerdict, decide_eq_true_eq, List.mem_map, candList]
  constructor
  · rintro ⟨c, ⟨pr, hpr, rfl⟩, hc⟩
    exact ⟨pr, hpr, (passCount_eq_length_iff _ _).mp hc⟩
  · rintro ⟨pr, hpr, hall⟩
    exact ⟨_, ⟨pr, hpr, rfl⟩, (passCount_eq_length_iff _ _).mpr hall⟩

/-- Unpacking the ok case of is_hemispherical. -/
lemma is_hemispherical_ok {d : ℕ} {rows : List (List ℝ)} {atol : ℝ} {h : Bool} {p : Option Vec3}
    (hok : is_hemispherical d rows atol = .ok (h, p)) :
    h = hemiVerdict (rows.map toVec3) ∧ p = hemiPole (rows.map toVec3) := by
  unfold is_hemispherical at hok
  split at hok
  · simp at hok
  split at hok
  · simp at hok
  split at hok
  · simp at hok
  simp only [Except.ok.injEq, Prod.mk.injEq] at hok
  exact ⟨hok.1.symm, hok.2.symm⟩

lemma length_filter_ne (n i : ℕ) (h : i < n) :
    ((List.range n).filter fun j => j != i).length = n - 1 := by
  induction n with
  | zero => omega
  | succ m ih =>
    rw [List.range_succ, List.filter_append, List.length_append]
    by_cases hi : i < m
    · rw [ih hi]
      have h1 : (List.filter (fun j => j != i) [m]).length = 1 := by
        have hb : (m != i) = true := by simpa using (by omega : m ≠ i)
        simp [List.filter_cons, hb]
      omega
    · have him : i = m := by omega
      subst him
      have h1 : (List.filter (fun j => j != i) [i]).length = 0 := by simp
      have h2 : List.filter (fun j => j != i) (List.range i) = List.range i := by
        rw [List.filter_eq_self]
        intro a ha
        simp only [List.mem_range] at ha
        simp [Nat.ne_of_lt ha]
      rw [h2, h1, List.length_range]
      omega

/-- itertools.permutations(vecs, 2) yields N * (N - 1) ordered pairs. -/
lemma orderedPairs_length (l : List Vec3) :
    (orderedPairs l).length = l.length * (l.length - 1) := by
  rw [orderedPairs, List.length_flatMap]
  have hcg : ∀ i ∈ List.range l.length,
      (((List.range l.length).filter fun j => j != i).map fun j =>
        (l.getD i (0, 0, 0), l.getD j (0, 0, 0))).length = l.length - 1 := by
    intro i hi
    rw [List.length_map]
    exact length_filter_ne _ _ (List.mem_range.mp hi)
  calc (List.map (fun i => (((List.range l.length).filter fun j => j != i).map fun j =>
            (l.getD i (0, 0, 0), l.getD j (0, 0, 0))).length) (List.range l.length)).sum
      = (List.map (fun _ => l.length - 1) (List.range l.length)).sum := by
        rw [List.map_congr_left hcg]
    _ = l.length * (l.length - 1) := by
        rw [List.map_const', List.sum_replicate, smul_eq_mul, List.length_range]

end PreAFQ

namespace PreAFQ

/-- The dimension error is returned exactly for a second shape component
other than 3, whatever the rows and tolerance. -/
lemma dimError_iff (d : ℕ) (rows : List (List ℝ)) (atol : ℝ) :
    is_hemispherical d rows atol = .error .dimError ↔ d ≠ 3 := by
  unfold is_hemispherical
  by_cases hd : d ≠ 3
  · simp [hd]
  · simp only [hd, if_false]
    constructor
    · intro h
      split at h
      · simp at h
      split at h
      · simp at h
      · simp at h
    · intro h
      exact h.elim

/-- The unit-norm error is returned, for a well-shaped input, exactly when the
allclose test on the row norms fails. -/
lemma notUnitError_iff (rows : List (List ℝ)) (atol : ℝ) :
    is_hemispherical 3 rows atol = .error .notUnitError ↔
      ¬ allcloseOne (rows.map normRow) atol := by
  unfold is_hemispherical
  rw [if_neg (by simp)]
  by_cases hall : allcloseOne (rows.map normRow) atol
  · rw [if_neg (not_not_intro hall)]
    constructor
    · intro h
      split at h
      · simp at h
      · simp at h
    · intro h
      exact absurd hall h
  · rw [if_pos hall]
    simpa using hall

/-- is_hemispherical never returns the argument-combination error: that error
belongs to the wrapper alone. -/
lemma is_hemispherical_ne_argCombError (d : ℕ) (rows : List (List ℝ)) (atol : ℝ) :
    is_hemispherical d rows atol ≠ .error .argCombError := by
  unfold is_hemispherical
  split
  · simp
  split
  · simp
  split
  · simp
  · simp

/-- On fewer than two vectors the pair list is empty. -/
lemma orderedPairs_eq_nil {l : List Vec3} (h : l.length ≤ 1) : orderedPairs l = [] := by
  match l, h with
  | [], _ => rfl
  | [a], _ => rfl

end PreAFQ

namespace PreAFQ

lemma normRow_three (x y z : ℝ) : normRow [x, y, z] = Real.sqrt (x ^ 2 + y ^ 2 + z ^ 2) := by
  simp only [normRow, List.map_cons, List.map_nil, List.sum_cons, List.sum_nil]
  congr 1
  ring

lemma norm3_mk (x y z : ℝ) : norm3 (x, y, z) = Real.sqrt (x ^ 2 + y ^ 2 + z ^ 2) := by
  simp only [norm3, dot]
  congr 1
  ring

/-- Evaluation of is_hemispherical on two unit rows whose cross products both
vanish: every candidate is a NaN row, no candidate passes, the verdict is
false and the pole is the zero vector. -/
lemma eval_two_none (r1 r2 : List ℝ) (h1 : normRow r1 = 1) (h2 : normRow r2 = 1)
    (hc1 : cross (toVec3 r1) (toVec3 r2) = (0, 0, 0))
    (hc2 : cross (toVec3 r2) (toVec3 r1) = (0, 0, 0)) :
    is_hemispherical 3 [r1, r2] defaultAtol = .ok (false, some (0, 0, 0)) := by
  have hall : allcloseOne ([r1, r2].map normRow) defaultAtol := by
    intro x hx
    simp only [List.map_cons, List.map_nil, List.mem_cons, List.not_mem_nil, or_false] at hx
    rcases hx with rfl | rfl
    · rw [h1]; norm_num [defaultAtol]
    · rw [h2]; norm_num [defaultAtol]
  have hpairs : orderedPairs [toVec3 r1, toVec3 r2] =
      [(toVec3 r1, toVec3 r2), (toVec3 r2, toVec3 r1)] := rfl
  have hcand : candList ([r1, r2].map toVec3) = [none, none] := by
    simp only [candList, List.map_cons, List.map_nil, hpairs]
    rw [hc1, hc2, normalizeOpt_zero]
  have hverdict : hemiVerdict ([r1, r2].map toVec3) = false := by
    rw [hemiVerdict]
    apply decide_eq_false
    rw [hcand]
    simp [passCount_none]
  unfold is_hemispherical
  rw [if_neg (by simp)]
  rw [if_neg (not_not_intro hall)]
  rw [if_neg (by rw [show List.map toVec3 [r1, r2] = [toVec3 r1, toVec3 r2] from rfl, hpairs]; simp)]
  rw [hemiPole, hverdict]
  simp

end PreAFQ

namespace PreAFQ

lemma passCount_pair {v1 v2 : Vec3} {c : Option Vec3} (h1 : passTest c v1)
    (h2 : passTest c v2) : passCount [v1, v2] c = 2 := by
  simp [passCount, h1, h2]

lemma norm3_e3 : norm3 ((0 : ℝ), (0 : ℝ), (1 : ℝ)) = 1 := by
  rw [norm3_mk]
  norm_num [Real.sqrt_one]

lemma norm3_me3 : norm3 ((0 : ℝ), (0 : ℝ), (-1 : ℝ)) = 1 := by
  rw [norm3_mk]
  norm_num [Real.sqrt_one]

/-- Evaluation of is_hemispherical on the perpendicular pair e1, e2: both
candidates (plus and minus e3) pass against both inputs at exactly 90 degrees,
so the verdict is true; the two vertices cancel in the mean, whose norm is
zero, so the pole is the NaN row (none). -/
lemma eval_e1e2 :
    is_hemispherical 3 [[(1 : ℝ), 0, 0], [(0 : ℝ), 1, 0]] (1 / 1000) = .ok (true, none) := by
  have hall : allcloseOne ([[(1 : ℝ), 0, 0], [(0 : ℝ), 1, 0]].map normRow) (1 / 1000) := by
    intro x hx
    simp only [List.map_cons, List.map_nil, List.mem_cons, List.not_mem_nil, or_false] at hx
    have e1 : normRow [(1 : ℝ), 0, 0] = 1 := by
      rw [normRow_three]; norm_num [Real.sqrt_one]
    have e2 : normRow [(0 : ℝ), 1, 0] = 1 := by
      rw [normRow_three]; norm_num [Real.sqrt_one]
    rcases hx with rfl | rfl
    · rw [e1]; norm_num
    · rw [e2]; norm_num
  have hpairs : orderedPairs [((1 : ℝ), (0 : ℝ), (0 : ℝ)), ((0 : ℝ), (1 : ℝ), (0 : ℝ))] =
      [(((1 : ℝ), (0 : ℝ), (0 : ℝ)), ((0 : ℝ), (1 : ℝ), (0 : ℝ))),
        (((0 : ℝ), (1 : ℝ), (0 : ℝ)), ((1 : ℝ), (0 : ℝ), (0 : ℝ)))] := rfl
  have hcr1 : cross ((1 : ℝ), (0 : ℝ), (0 : ℝ)) ((0 : ℝ), (1 : ℝ), (0 : ℝ)) =
      ((0 : ℝ), (0 : ℝ), (1 : ℝ)) := by
    norm_num [cross]
  have hcr2 : cross ((0 : ℝ), (1 : ℝ), (0 : ℝ)) ((1 : ℝ), (0 : ℝ), (0 : ℝ)) =
      ((0 : ℝ), (0 : ℝ), (-1 : ℝ)) := by
    norm_num [cross]
  have hcand : candList [((1 : ℝ), (0 : ℝ), (0 : ℝ)), ((0 : ℝ), (1 : ℝ), (0 : ℝ))] =
      [some ((0 : ℝ), (0 : ℝ), (1 : ℝ)), some ((0 : ℝ), (0 : ℝ), (-1 : ℝ))] := by
    simp only [candList, hpairs, List.map_cons, List.map_nil]
    rw [hcr1, hcr2, normalizeOpt_unit norm3_e3, normalizeOpt_unit norm3_me3]
  have hp1 : passCount [((1 : ℝ), (0 : ℝ), (0 : ℝ)), ((0 : ℝ), (1 : ℝ), (0 : ℝ))]
      (some ((0 : ℝ), (0 : ℝ), (1 : ℝ))) = 2 :=
    passCount_pair ((passTest_some_iff _ _).mpr (by norm_num [dot]))
      ((passTest_some_iff _ _).mpr (by norm_num [dot]))
  have hp2 : passCount [((1 : ℝ), (0 : ℝ), (0 : ℝ)), ((0 : ℝ), (1 : ℝ), (0 : ℝ))]
      (some ((0 : ℝ), (0 : ℝ), (-1 : ℝ))) = 2 :=
    passCount_pair ((passTest_some_iff _ _).mpr (by norm_num [dot]))
      ((passTest_some_iff _ _).mpr (by norm_num [dot]))
  have hverdict : hemiVerdict [((1 : ℝ), (0 : ℝ), (0 : ℝ)), ((0 : ℝ), (1 : ℝ), (0 : ℝ))] = true := by
    rw [hemiVerdict]
    apply decide_eq_true
    rw [hcand, List.map_cons, List.map_cons, List.map_nil, hp1, hp2]
    simp
  have hvert : vertexList [((1 : ℝ), (0 : ℝ), (0 : ℝ)), ((0 : ℝ), (1 : ℝ), (0 : ℝ))] =
      [some ((0 : ℝ), (0 : ℝ), (1 : ℝ)), some ((0 : ℝ), (0 : ℝ), (-1 : ℝ))] := by
    rw [vertexList, hcand]
    simp only [List.filter_cons, List.filter_nil, List.length_cons, List.length_nil, hp1, hp2,
      decide_eq_true_eq]
    norm_num
  have hpole : hemiPole [((1 : ℝ), (0 : ℝ), (0 : ℝ)), ((0 : ℝ), (1 : ℝ), (0 : ℝ))] = none := by
    rw [hemiPole, hverdict, if_pos rfl, poleOf, hvert]
    rw [show (([some ((0 : ℝ), (0 : ℝ), (1 : ℝ)), some ((0 : ℝ), (0 : ℝ), (-1 : ℝ))]).map
        fun o => o.getD (0, 0, 0)) =
      [((0 : ℝ), (0 : ℝ), (1 : ℝ)), ((0 : ℝ), (0 : ℝ), (-1 : ℝ))] from rfl]
    have hmean : meanV [((0 : ℝ), (0 : ℝ), (1 : ℝ)), ((0 : ℝ), (0 : ℝ), (-1 : ℝ))] =
        ((0 : ℝ), (0 : ℝ), (0 : ℝ)) := by
      norm_num [meanV, sumV, vadd, smul]
    rw [hmean, normalizeOpt_zero]
  unfold is_hemispherical
  rw [if_neg (by simp)]
  rw [if_neg (not_not_intro hall)]
  rw [if_neg (by
    rw [show List.map toVec3 [[(1 : ℝ), 0, 0], [(0 : ℝ), 1, 0]] =
      [((1 : ℝ), (0 : ℝ), (0 : ℝ)), ((0 : ℝ), (1 : ℝ), (0 : ℝ))] from rfl, hpairs]
    simp)]
  rw [show List.map toVec3 [[(1 : ℝ), 0, 0], [(0 : ℝ), 1, 0]] =
    [((1 : ℝ), (0 : ℝ), (0 : ℝ)), ((0 : ℝ), (1 : ℝ), (0 : ℝ))] from rfl]
  rw [hverdict, hpole]

end PreAFQ

namespace PreAFQ

/-! The claim theorems. -/

/-- Claim C4: the dimension-validation error is raised exactly when the second
shape component of the input array is not 3, for every row list and tolerance,
so it depends on nothing but the shape and precedes all pairwise computation. -/
theorem dim_error_iff_shape_ne_three (d : ℕ) (rows : List (List ℝ)) (atol : ℝ) :
    is_hemispherical d rows atol = .error .dimError ↔ d ≠ 3 :=
  dimError_iff d rows atol

/-- Claim C3, amended: the unit-vector error is raised exactly when the numpy
allclose test fails, whose elementwise bound is
abs (1 - norm) LE atol + rtol * abs norm with the numpy default rtol = 1e-5
(not atol + atol * 1 as the claim states); the default tolerance is
10e-4 = 1/1000. -/
theorem unit_norm_error_iff_allclose_fails (rows : List (List ℝ)) (atol : ℝ) :
    (is_hemispherical 3 rows atol = .error .notUnitError ↔
      ¬ allcloseOne (rows.map normRow) atol) ∧ defaultAtol = 1 / 1000 :=
  ⟨notUnitError_iff rows atol, by norm_num [defaultAtol]⟩

/-- Claim C3, counterexample: the single row (2003/2000, 0, 0) has norm
2003/2000, within the bound atol + atol * 1 stated by the claim for
atol = 1/1000, yet the code raises the unit-vector error, because the actual
allclose bound is atol + (1e-5) * norm, which is smaller. -/
theorem unit_norm_bound_counterexample :
    is_hemispherical 3 [[(2003 : ℝ) / 2000, 0, 0]] (1 / 1000) = .error .notUnitError ∧
    |normRow [(2003 : ℝ) / 2000, 0, 0] - 1| ≤ 1 / 1000 + 1 / 1000 * 1 := by
  have hnr : normRow [(2003 : ℝ) / 2000, 0, 0] = 2003 / 2000 := by
    rw [normRow_three]
    rw [show ((2003 : ℝ) / 2000) ^ 2 + 0 ^ 2 + 0 ^ 2 = ((2003 : ℝ) / 2000) ^ 2 by ring]
    exact Real.sqrt_sq (by norm_num)
  constructor
  · rw [notUnitError_iff]
    intro hall
    have hb := hall (normRow [(2003 : ℝ) / 2000, 0, 0]) (by simp)
    rw [hnr] at hb
    rw [abs_of_nonpos (by norm_num), abs_of_nonneg (by norm_num)] at hb
    norm_num at hb
  · rw [hnr, abs_of_nonneg (by norm_num)]
    norm_num

lemma unpackError_of_few (rows : List (List ℝ)) (atol : ℝ)
    (hlen : rows.length ≤ 1) (hunit : allcloseOne (rows.map normRow) atol) :
    is_hemispherical 3 rows atol = .error .unpackError := by
  unfold is_hemispherical
  rw [if_neg (by simp)]
  rw [if_neg (not_not_intro hunit)]
  rw [if_pos (by rw [orderedPairs_eq_nil (by simpa using hlen)]; rfl)]

/-- Claim C9: on a validated input with fewer than two vectors the tuple
unpacking of the empty pair list raises, so the function returns no verdict. -/
theorem too_few_vectors_unpack_error (rows : List (List ℝ)) (atol : ℝ)
    (hlen : rows.length ≤ 1) (hunit : allcloseOne (rows.map normRow) atol) :
    is_hemispherical 3 rows atol = .error .unpackError :=
  unpackError_of_few rows atol hlen hunit

/-- Witness for C9 at the empty (0, 3) input. -/
theorem too_few_vectors_unpack_error_instance :
    ([] : List (List ℝ)).length ≤ 1 ∧
      allcloseOne ((([] : List (List ℝ))).map normRow) 1 ∧
      is_hemispherical 3 [] 1 = .error .unpackError :=
  ⟨by simp, fun x hx => absurd hx (List.not_mem_nil x),
    too_few_vectors_unpack_error [] 1 (by simp) fun x hx => absurd hx (List.not_mem_nil x)⟩

/-- Claim C8: the function is a pure mathematical function of its three
arguments, so two calls on identical inputs return identical results; the
embedding carries no state between calls, matching the source, whose only
module-level object (a logger) is never touched by this function. -/
theorem is_hemispherical_deterministic (d1 d2 : ℕ) (rows1 rows2 : List (List ℝ))
    (atol1 atol2 : ℝ) (hd : d1 = d2) (hr : rows1 = rows2) (ha : atol1 = atol2) :
    is_hemispherical d1 rows1 atol1 = is_hemispherical d2 rows2 atol2 := by
  rw [hd, hr, ha]

/-- Witness for C8 at a concrete input. -/
theorem is_hemispherical_deterministic_instance :
    is_hemispherical 3 [[(1 : ℝ), 0, 0]] 1 = is_hemispherical 3 [[(1 : ℝ), 0, 0]] 1 :=
  is_hemispherical_deterministic 3 3 [[(1 : ℝ), 0, 0]] [[(1 : ℝ), 0, 0]] 1 1 rfl rfl rfl

/-- Claim C10: the wrapper also raises the argument-combination error when no
table and exactly one path is supplied, and when a table is supplied together
with exactly one path. -/
theorem wrapper_single_path_errors (P : Type) (load : P → P → GradientTable)
    (s t : P) (g : GradientTable) (atol : ℝ) :
    is_bval_bvec_hemispherical load none (some s) none atol = .error .argCombError ∧
    is_bval_bvec_hemispherical load none none (some t) atol = .error .argCombError ∧
    is_bval_bvec_hemispherical load (some g) (some s) none atol = .error .argCombError ∧
    is_bval_bvec_hemispherical load (some g) none (some t) atol = .error .argCombError :=
  ⟨rfl, rfl, rfl, rfl⟩

/-- Claim C7, amended: the wrapper raises the argument-combination error
exactly when no table is given and some path is missing, or a table is given
together with at least one path; in the two remaining cases (paths alone, or
table alone) it delegates to is_hemispherical on the rows of the table where
the b0 mask is false. -/
theorem wrapper_cases_spec (P : Type) (load : P → P → GradientTable)
    (gtab : Option GradientTable) (bval_file bvec_file : Option P) (atol : ℝ) :
    (is_bval_bvec_hemispherical load gtab bval_file bvec_file atol = .error .argCombError ↔
      (gtab = none ∧ (bval_file = none ∨ bvec_file = none)) ∨
        (gtab ≠ none ∧ (bval_file ≠ none ∨ bvec_file ≠ none))) ∧
    (∀ s t, gtab = none → bval_file = some s → bvec_file = some t →
      is_bval_bvec_hemispherical load gtab bval_file bvec_file atol =
        is_hemispherical (load s t).bvecsDim (nonB0Bvecs (load s t)) atol) ∧
    (∀ g, gtab = some g → bval_file = none → bvec_file = none →
      is_bval_bvec_hemispherical load gtab bval_file bvec_file atol =
        is_hemispherical g.bvecsDim (nonB0Bvecs g) atol) := by
  rcases gtab with _ | g <;> rcases bval_file with _ | s <;> rcases bvec_file with _ | t <;>
    refine ⟨?_, ?_, ?_⟩ <;>
    simp [is_bval_bvec_hemispherical, is_hemispherical_ne_argCombError]

/-- Witness for C7 in the delegating table-only case. -/
theorem wrapper_cases_spec_instance :
    is_bval_bvec_hemispherical (fun _ _ : ℕ => GradientTable.mk 3 [] [])
        (some (GradientTable.mk 3 [] [])) none none 1 =
      is_hemispherical (GradientTable.mk 3 [] []).bvecsDim
        (nonB0Bvecs (GradientTable.mk 3 [] [])) 1 :=
  (wrapper_cases_spec ℕ (fun _ _ => GradientTable.mk 3 [] [])
      (some (GradientTable.mk 3 [] [])) none none 1).2.2 (GradientTable.mk 3 [] []) rfl rfl rfl

/-- Claim C7, counterexample: with a table supplied together with a single
path the wrapper raises the argument-combination error, while the claim says
every combination outside its two error cases delegates; delegation would
return the unpack error of the empty table here, not the argument error. -/
theorem wrapper_mixed_args_counterexample :
    is_bval_bvec_hemispherical (fun _ _ : ℕ => GradientTable.mk 3 [] [])
        (some (GradientTable.mk 3 [] [])) (some 0) none 1 = .error .argCombError ∧
    is_hemispherical (GradientTable.mk 3 [] []).bvecsDim
        (nonB0Bvecs (GradientTable.mk 3 [] [])) 1 = .error .unpackError := by
  refine ⟨rfl, ?_⟩
  exact unpackError_of_few [] 1 (by simp) fun x hx => absurd hx (List.not_mem_nil x)

end PreAFQ

namespace PreAFQ

/-- Claim C1: for every input accepted by validation, the verdict is true
exactly when at least one of the N * (N - 1) ordered-pair candidates (the
normalized cross products, a NaN row when the cross product vanishes) passes
the arccos test against all N input vectors; the pair list indeed has
N * (N - 1) entries. -/
theorem hemi_verdict_iff_passing_candidate (rows : List (List ℝ)) (atol : ℝ) (h : Bool)
    (p : Option Vec3) (hok : is_hemispherical 3 rows atol = .ok (h, p)) :
    (orderedPairs (rows.map toVec3)).length = rows.length * (rows.length - 1) ∧
    (h = true ↔ ∃ pr ∈ orderedPairs (rows.map toVec3),
      ∀ v ∈ rows.map toVec3, passTest (normalizeOpt (cross pr.1 pr.2)) v) := by
  refine ⟨?_, ?_⟩
  · rw [orderedPairs_length, List.length_map]
  · rw [(is_hemispherical_ok hok).1]
    exact hemiVerdict_true_iff _

/-- Witness for C1 at the perpendicular pair e1, e2, where the verdict is
true. -/
theorem hemi_verdict_iff_passing_candidate_instance :
    is_hemispherical 3 [[(1 : ℝ), 0, 0], [(0 : ℝ), 1, 0]] (1 / 1000) = .ok (true, none) ∧
    ((orderedPairs ([[(1 : ℝ), 0, 0], [(0 : ℝ), 1, 0]].map toVec3)).length = 2 * (2 - 1) ∧
      (true = true ↔ ∃ pr ∈ orderedPairs ([[(1 : ℝ), 0, 0], [(0 : ℝ), 1, 0]].map toVec3),
        ∀ v ∈ [[(1 : ℝ), 0, 0], [(0 : ℝ), 1, 0]].map toVec3,
          passTest (normalizeOpt (cross pr.1 pr.2)) v)) :=
  ⟨eval_e1e2, hemi_verdict_iff_passing_candidate _ _ _ _ eval_e1e2⟩

/-- Claim C2: on the true branch the returned pole is the mean of the vertex
candidates renormalized by its own Euclidean norm (none when that norm is
zero, the NaN of the source); on the false branch it is the zero vector. -/
theorem hemi_pole_spec (rows : List (List ℝ)) (atol : ℝ) (h : Bool) (p : Option Vec3)
    (hok : is_hemispherical 3 rows atol = .ok (h, p)) :
    (h = true → p = normalizeOpt (meanV ((vertexList (rows.map toVec3)).map
        fun o => o.getD (0, 0, 0)))) ∧
    (h = false → p = some (0, 0, 0)) := by
  obtain ⟨hh, hp⟩ := is_hemispherical_ok hok
  constructor
  · intro ht
    rw [hp, hemiPole, ← hh, ht, if_pos rfl, poleOf]
  · intro hf
    rw [hp, hemiPole, ← hh, hf]
    simp

/-- Witness for C2 at the perpendicular pair e1, e2. -/
theorem hemi_pole_spec_instance :
    is_hemispherical 3 [[(1 : ℝ), 0, 0], [(0 : ℝ), 1, 0]] (1 / 1000) = .ok (true, none) ∧
    (((true : Bool) = true → (none : Option Vec3) = normalizeOpt (meanV ((vertexList
        ([[(1 : ℝ), 0, 0], [(0 : ℝ), 1, 0]].map toVec3)).map fun o => o.getD (0, 0, 0)))) ∧
      ((true : Bool) = false → (none : Option Vec3) = some (0, 0, 0))) :=
  ⟨eval_e1e2, hemi_pole_spec _ _ _ _ eval_e1e2⟩

/-- Claim C5: for every exactly-unit vector v, the antipodal pair v, -v gives
the verdict false and the zero pole: both cross products vanish, their
normalization is the NaN row, and a NaN row passes no test. -/
theorem antipodal_pair_not_hemispherical (x y z : ℝ) (hunit : normRow [x, y, z] = 1) :
    is_hemispherical 3 [[x, y, z], [-x, -y, -z]] defaultAtol = .ok (false, some (0, 0, 0)) := by
  apply eval_two_none
  · exact hunit
  · rw [normRow_three] at hunit ⊢
    rw [show (-x) ^ 2 + (-y) ^ 2 + (-z) ^ 2 = x ^ 2 + y ^ 2 + z ^ 2 by ring]
    exact hunit
  · rw [show toVec3 [x, y, z] = (x, y, z) from rfl,
      show toVec3 [-x, -y, -z] = (-x, -y, -z) from rfl]
    simp only [cross, Prod.mk.injEq]
    refine ⟨by ring, by ring, by ring⟩
  · rw [show toVec3 [x, y, z] = (x, y, z) from rfl,
      show toVec3 [-x, -y, -z] = (-x, -y, -z) from rfl]
    simp only [cross, Prod.mk.injEq]
    refine ⟨by ring, by ring, by ring⟩

/-- Witness for C5 at v = (1, 0, 0). -/
theorem antipodal_pair_not_hemispherical_instance :
    normRow [(1 : ℝ), 0, 0] = 1 ∧
      is_hemispherical 3 [[(1 : ℝ), 0, 0], [-(1 : ℝ), -0, -0]] defaultAtol =
        .ok (false, some (0, 0, 0)) :=
  ⟨by rw [normRow_three]; norm_num [Real.sqrt_one],
    antipodal_pair_not_hemispherical 1 0 0 (by rw [normRow_three]; norm_num [Real.sqrt_one])⟩

/-- Claim C6: the boolean verdict is invariant under permutation of the input
rows, whenever both the row list and its permutation are accepted. -/
theorem verdict_permutation_invariant (d : ℕ) (rows1 rows2 : List (List ℝ)) (atol : ℝ)
    (h1 h2 : Bool) (p1 p2 : Option Vec3) (hperm : rows1.Perm rows2)
    (hok1 : is_hemispherical d rows1 atol = .ok (h1, p1))
    (hok2 : is_hemispherical d rows2 atol = .ok (h2, p2)) : h1 = h2 := by
  have hv : (rows1.map toVec3).Perm (rows2.map toVec3) := hperm.map toVec3
  have e1 : h1 = true ↔ ∃ pr ∈ orderedPairs (rows1.map toVec3),
      ∀ v ∈ rows1.map toVec3, passTest (normalizeOpt (cross pr.1 pr.2)) v := by
    rw [(is_hemispherical_ok hok1).1]
    exact hemiVerdict_true_iff _
  have e2 : h2 = true ↔ ∃ pr ∈ orderedPairs (rows2.map toVec3),
      ∀ v ∈ rows2.map toVec3, passTest (normalizeOpt (cross pr.1 pr.2)) v := by
    rw [(is_hemispherical_ok hok2).1]
    exact hemiVerdict_true_iff _
  have etrans : (∃ pr ∈ orderedPairs (rows1.map toVec3),
      ∀ v ∈ rows1.map toVec3, passTest (normalizeOpt (cross pr.1 pr.2)) v) ↔
      (∃ pr ∈ orderedPairs (rows2.map toVec3),
        ∀ v ∈ rows2.map toVec3, passTest (normalizeOpt (cross pr.1 pr.2)) v) := by
    constructor
    · rintro ⟨⟨a, b⟩, hmem, hall⟩
      exact ⟨(a, b), (mem_orderedPairs_perm hv a b).mp hmem,
        fun v hvm => hall v (hv.mem_iff.mpr hvm)⟩
    · rintro ⟨⟨a, b⟩, hmem, hall⟩
      exact ⟨(a, b), (mem_orderedPairs_perm hv a b).mpr hmem,
        fun v hvm => hall v (hv.mem_iff.mp hvm)⟩
  have hiff : h1 = true ↔ h2 = true := by
    rw [e1, e2]
    exact etrans
  cases h1 <;> cases h2 <;> simp_all

/-- Witness for C6 at the antipodal pair and its swap. -/
theorem verdict_permutation_invariant_instance :
    ([[(0 : ℝ), 0, 1], [(0 : ℝ), 0, -1]] : List (List ℝ)).Perm
        [[(0 : ℝ), 0, -1], [(0 : ℝ), 0, 1]] ∧
    is_hemispherical 3 [[(0 : ℝ), 0, 1], [(0 : ℝ), 0, -1]] defaultAtol =
        .ok (false, some (0, 0, 0)) ∧
    is_hemispherical 3 [[(0 : ℝ), 0, -1], [(0 : ℝ), 0, 1]] defaultAtol =
        .ok (false, some (0, 0, 0)) ∧
    (false : Bool) = false := by
  have ha : normRow [(0 : ℝ), 0, 1] = 1 := by
    rw [normRow_three]; norm_num [Real.sqrt_one]
  have hb : normRow [(0 : ℝ), 0, -1] = 1 := by
    rw [normRow_three]; norm_num [Real.sqrt_one]
  have hcx : cross (toVec3 [(0 : ℝ), 0, 1]) (toVec3 [(0 : ℝ), 0, -1]) = (0, 0, 0) := by
    rw [show toVec3 [(0 : ℝ), 0, 1] = ((0 : ℝ), (0 : ℝ), (1 : ℝ)) from rfl,
      show toVec3 [(0 : ℝ), 0, -1] = ((0 : ℝ), (0 : ℝ), (-1 : ℝ)) from rfl]
    norm_num [cross]
  have hcy : cross (toVec3 [(0 : ℝ), 0, -1]) (toVec3 [(0 : ℝ), 0, 1]) = (0, 0, 0) := by
    rw [show toVec3 [(0 : ℝ), 0, 1] = ((0 : ℝ), (0 : ℝ), (1 : ℝ)) from rfl,
      show toVec3 [(0 : ℝ), 0, -1] = ((0 : ℝ), (0 : ℝ), (-1 : ℝ)) from rfl]
    norm_num [cross]
  have ev1 := eval_two_none [(0 : ℝ), 0, 1] [(0 : ℝ), 0, -1] ha hb hcx hcy
  have ev2 := eval_two_none [(0 : ℝ), 0, -1] [(0 : ℝ), 0, 1] hb ha hcy hcx
  have hperm : ([[(0 : ℝ), 0, 1], [(0 : ℝ), 0, -1]] : List (List ℝ)).Perm
      [[(0 : ℝ), 0, -1], [(0 : ℝ), 0, 1]] := List.Perm.swap _ _ _
  exact ⟨hperm, ev1, ev2,
    verdict_permutation_invariant 3 _ _ defaultAtol false false _ _ hperm ev1 ev2⟩

end PreAFQ

/-! Faithfulness of the arccos domain handling: dot products outside the
arccos domain fail the pass test, and on the scaled-axes input the embedding
reproduces the false verdict and zero pole of the source. -/

namespace PreAFQ

lemma smul_smul3 (s t : ℝ) (c : Vec3) : smul s (smul t c) = smul (s * t) c := by
  simp [smul, mul_assoc]

lemma smul_one3 (c : Vec3) : smul 1 c = c := by
  simp [smul]

lemma norm3_smul_of_unit {c : Vec3} {t : ℝ} (ht : 0 ≤ t) (h : norm3 c = 1) :
    norm3 (smul t c) = t := by
  have hd : dot (smul t c) (smul t c) = t ^ 2 * dot c c := by
    simp only [smul, dot]
    ring
  rw [norm3, hd, Real.sqrt_mul (sq_nonneg t), Real.sqrt_sq ht,
    show Real.sqrt (dot c c) = norm3 c from rfl, h, mul_one]

/-- Normalizing a positive multiple of a unit vector returns that unit
vector. -/
lemma normalizeOpt_smul_unit {c : Vec3} {t : ℝ} (ht : 0 < t) (h : norm3 c = 1) :
    normalizeOpt (smul t c) = some c := by
  have hn : norm3 (smul t c) = t := norm3_smul_of_unit ht.le h
  unfold normalizeOpt
  rw [hn, if_neg ht.ne', smul_smul3, inv_mul_cancel₀ ht.ne', smul_one3]

/-- A dot product above 1 fails the pass test: numpy.arccos returns NaN there
and NaN <= pi/2 is False. -/
lemma passTest_fails_above_one {c v : Vec3} (h : 1 < dot c v) : ¬ passTest (some c) v := by
  intro hp
  have hiff := (passTest_some_iff c v).mp hp
  linarith [hiff.2]

/-- A negative dot product fails the pass test: the angle exceeds pi/2. -/
lemma passTest_fails_neg {c v : Vec3} (h : dot c v < 0) : ¬ passTest (some c) v := by
  intro hp
  have hiff := (passTest_some_iff c v).mp hp
  linarith [hiff.1]

/-- Evaluation of is_hemispherical on the validated input whose rows are the
three coordinate axes scaled by 1001/1000 (norms 1.001, accepted by allclose
at the default tolerance).  Every candidate is a unit axis row whose dot
product with the parallel input is 1.001 or -1.001; numpy.arccos of 1.001 is
NaN, so in the source every candidate fails one test, the verdict is false
and the pole is the zero vector, and the embedding agrees. -/
lemma eval_overshoot_axes :
    is_hemispherical 3 [[(1001 : ℝ) / 1000, 0, 0], [(0 : ℝ), 1001 / 1000, 0],
        [(0 : ℝ), 0, 1001 / 1000]] defaultAtol = .ok (false, some (0, 0, 0)) := by
  have hapos : (0 : ℝ) < ((1001 : ℝ) / 1000) ^ 2 := by norm_num
  have hn0 : normRow [(1001 : ℝ) / 1000, 0, 0] = 1001 / 1000 := by
    rw [normRow_three, show ((1001 : ℝ) / 1000) ^ 2 + 0 ^ 2 + 0 ^ 2 =
      ((1001 : ℝ) / 1000) ^ 2 by ring]
    exact Real.sqrt_sq (by norm_num)
  have hn1 : normRow [(0 : ℝ), 1001 / 1000, 0] = 1001 / 1000 := by
    rw [normRow_three, show (0 : ℝ) ^ 2 + ((1001 : ℝ) / 1000) ^ 2 + 0 ^ 2 =
      ((1001 : ℝ) / 1000) ^ 2 by ring]
    exact Real.sqrt_sq (by norm_num)
  have hn2 : normRow [(0 : ℝ), 0, 1001 / 1000] = 1001 / 1000 := by
    rw [normRow_three, show (0 : ℝ) ^ 2 + 0 ^ 2 + ((1001 : ℝ) / 1000) ^ 2 =
      ((1001 : ℝ) / 1000) ^ 2 by ring]
    exact Real.sqrt_sq (by norm_num)
  have hall : allcloseOne ([[(1001 : ℝ) / 1000, 0, 0], [(0 : ℝ), 1001 / 1000, 0],
      [(0 : ℝ), 0, 1001 / 1000]].map normRow) defaultAtol := by
    intro x hx
    simp only [List.map_cons, List.map_nil, List.mem_cons, List.not_mem_nil, or_false] at hx
    rcases hx with rfl | rfl | rfl
    · rw [hn0, abs_of_nonpos (by norm_num), abs_of_nonneg (by norm_num)]
      norm_num [defaultAtol]
    · rw [hn1, abs_of_nonpos (by norm_num), abs_of_nonneg (by norm_num)]
      norm_num [defaultAtol]
    · rw [hn2, abs_of_nonpos (by norm_num), abs_of_nonneg (by norm_num)]
      norm_num [defaultAtol]
  have hpairs : orderedPairs [(((1001 : ℝ) / 1000), (0 : ℝ), (0 : ℝ)),
      ((0 : ℝ), ((1001 : ℝ) / 1000), (0 : ℝ)), ((0 : ℝ), (0 : ℝ), ((1001 : ℝ) / 1000))] =
      [((((1001 : ℝ) / 1000), (0 : ℝ), (0 : ℝ)), ((0 : ℝ), ((1001 : ℝ) / 1000), (0 : ℝ))),
        ((((1001 : ℝ) / 1000), (0 : ℝ), (0 : ℝ)), ((0 : ℝ), (0 : ℝ), ((1001 : ℝ) / 1000))),
        (((0 : ℝ), ((1001 : ℝ) / 1000), (0 : ℝ)), (((1001 : ℝ) / 1000), (0 : ℝ), (0 : ℝ))),
        (((0 : ℝ), ((1001 : ℝ) / 1000), (0 : ℝ)), ((0 : ℝ), (0 : ℝ), ((1001 : ℝ) / 1000))),
        (((0 : ℝ), (0 : ℝ), ((1001 : ℝ) / 1000)), (((1001 : ℝ) / 1000), (0 : ℝ), (0 : ℝ))),
        (((0 : ℝ), (0 : ℝ), ((1001 : ℝ) / 1000)), ((0 : ℝ), ((1001 : ℝ) / 1000), (0 : ℝ)))] := rfl
  have hc01 : cross (((1001 : ℝ) / 1000), (0 : ℝ), (0 : ℝ)) ((0 : ℝ), ((1001 : ℝ) / 1000), (0 : ℝ)) =
      smul (((1001 : ℝ) / 1000) ^ 2) ((0 : ℝ), (0 : ℝ), (1 : ℝ)) := by
    simp only [cross, smul, Prod.mk.injEq]
    refine ⟨by ring, by ring, by ring⟩
  have hc02 : cross (((1001 : ℝ) / 1000), (0 : ℝ), (0 : ℝ)) ((0 : ℝ), (0 : ℝ), ((1001 : ℝ) / 1000)) =
      smul (((1001 : ℝ) / 1000) ^ 2) ((0 : ℝ), (-1 : ℝ), (0 : ℝ)) := by
    simp only [cross, smul, Prod.mk.injEq]
    refine ⟨by ring, by ring, by ring⟩
  have hc10 : cross ((0 : ℝ), ((1001 : ℝ) / 1000), (0 : ℝ)) (((1001 : ℝ) / 1000), (0 : ℝ), (0 : ℝ)) =
      smul (((1001 : ℝ) / 1000) ^ 2) ((0 : ℝ), (0 : ℝ), (-1 : ℝ)) := by
    simp only [cross, smul, Prod.mk.injEq]
    refine ⟨by ring, by ring, by ring⟩
  have hc12 : cross ((0 : ℝ), ((1001 : ℝ) / 1000), (0 : ℝ)) ((0 : ℝ), (0 : ℝ), ((1001 : ℝ) / 1000)) =
      smul (((1001 : ℝ) / 1000) ^ 2) ((1 : ℝ), (0 : ℝ), (0 : ℝ)) := by
    simp only [cross, smul, Prod.mk.injEq]
    refine ⟨by ring, by ring, by ring⟩
  have hc20 : cross ((0 : ℝ), (0 : ℝ), ((1001 : ℝ) / 1000)) (((1001 : ℝ) / 1000), (0 : ℝ), (0 : ℝ)) =
      smul (((1001 : ℝ) / 1000) ^ 2) ((0 : ℝ), (1 : ℝ), (0 : ℝ)) := by
    simp only [cross, smul, Prod.mk.injEq]
    refine ⟨by ring, by ring, by ring⟩
  have hc21 : cross ((0 : ℝ), (0 : ℝ), ((1001 : ℝ) / 1000)) ((0 : ℝ), ((1001 : ℝ) / 1000), (0 : ℝ)) =
      smul (((1001 : ℝ) / 1000) ^ 2) ((-1 : ℝ), (0 : ℝ), (0 : ℝ)) := by
    simp only [cross, smul, Prod.mk.injEq]
    refine ⟨by ring, by ring, by ring⟩
  have hcand : candList [(((1001 : ℝ) / 1000), (0 : ℝ), (0 : ℝ)),
      ((0 : ℝ), ((1001 : ℝ) / 1000), (0 : ℝ)), ((0 : ℝ), (0 : ℝ), ((1001 : ℝ) / 1000))] =
      [some ((0 : ℝ), (0 : ℝ), (1 : ℝ)), some ((0 : ℝ), (-1 : ℝ), (0 : ℝ)),
        some ((0 : ℝ), (0 : ℝ), (-1 : ℝ)), some ((1 : ℝ), (0 : ℝ), (0 : ℝ)),
        some ((0 : ℝ), (1 : ℝ), (0 : ℝ)), some ((-1 : ℝ), (0 : ℝ), (0 : ℝ))] := by
    simp only [candList, hpairs, List.map_cons, List.map_nil]
    rw [hc01, hc02, hc10, hc12, hc20, hc21,
      normalizeOpt_smul_unit hapos (by rw [norm3_mk]; norm_num [Real.sqrt_one]),
      normalizeOpt_smul_unit hapos (by rw [norm3_mk]; norm_num [Real.sqrt_one]),
      normalizeOpt_smul_unit hapos (by rw [norm3_mk]; norm_num [Real.sqrt_one]),
      normalizeOpt_smul_unit hapos (by rw [norm3_mk]; norm_num [Real.sqrt_one]),
      normalizeOpt_smul_unit hapos (by rw [norm3_mk]; norm_num [Real.sqrt_one]),
      normalizeOpt_smul_unit hapos (by rw [norm3_mk]; norm_num [Real.sqrt_one])]
  have k0 : passCount [(((1001 : ℝ) / 1000), (0 : ℝ), (0 : ℝ)),
      ((0 : ℝ), ((1001 : ℝ) / 1000), (0 : ℝ)), ((0 : ℝ), (0 : ℝ), ((1001 : ℝ) / 1000))]
      (some ((0 : ℝ), (0 : ℝ), (1 : ℝ))) = 2 := by
    have p0 := (passTest_some_iff ((0 : ℝ), (0 : ℝ), (1 : ℝ))
      (((1001 : ℝ) / 1000), (0 : ℝ), (0 : ℝ))).mpr (by norm_num [dot])
    have p1 := (passTest_some_iff ((0 : ℝ), (0 : ℝ), (1 : ℝ))
      ((0 : ℝ), ((1001 : ℝ) / 1000), (0 : ℝ))).mpr (by norm_num [dot])
    have n2 : ¬ passTest (some ((0 : ℝ), (0 : ℝ), (1 : ℝ)))
        ((0 : ℝ), (0 : ℝ), ((1001 : ℝ) / 1000)) :=
      passTest_fails_above_one (by norm_num [dot])
    simp only [passCount, List.map_cons, List.map_nil, List.sum_cons, List.sum_nil]
    rw [if_pos p0, if_pos p1, if_neg n2]
    rfl
  have k1 : passCount [(((1001 : ℝ) / 1000), (0 : ℝ), (0 : ℝ)),
      ((0 : ℝ), ((1001 : ℝ) / 1000), (0 : ℝ)), ((0 : ℝ), (0 : ℝ), ((1001 : ℝ) / 1000))]
      (some ((0 : ℝ), (-1 : ℝ), (0 : ℝ))) = 2 := by
    have p0 := (passTest_some_iff ((0 : ℝ), (-1 : ℝ), (0 : ℝ))
      (((1001 : ℝ) / 1000), (0 : ℝ), (0 : ℝ))).mpr (by norm_num [dot])
    have n1 : ¬ passTest (some ((0 : ℝ), (-1 : ℝ), (0 : ℝ)))
        ((0 : ℝ), ((1001 : ℝ) / 1000), (0 : ℝ)) :=
      passTest_fails_neg (by norm_num [dot])
    have p2 := (passTest_some_iff ((0 : ℝ), (-1 : ℝ), (0 : ℝ))
      ((0 : ℝ), (0 : ℝ), ((1001 : ℝ) / 1000))).mpr (by norm_num [dot])
    simp only [passCount, List.map_cons, List.map_nil, List.sum_cons, List.sum_nil]
    rw [if_pos p0, if_neg n1, if_pos p2]
    rfl
  have k2 : passCount [(((1001 : ℝ) / 1000), (0 : ℝ), (0 : ℝ)),
      ((0 : ℝ), ((1001 : ℝ) / 1000), (0 : ℝ)), ((0 : ℝ), (0 : ℝ), ((1001 : ℝ) / 1000))]
      (some ((0 : ℝ), (0 : ℝ), (-1 : ℝ))) = 2 := by
    have p0 := (passTest_some_iff ((0 : ℝ), (0 : ℝ), (-1 : ℝ))
      (((1001 : ℝ) / 1000), (0 : ℝ), (0 : ℝ))).mpr (by norm_num [dot])
    have p1 := (passTest_some_iff ((0 : ℝ), (0 : ℝ), (-1 : ℝ))
      ((0 : ℝ), ((1001 : ℝ) / 1000), (0 : ℝ))).mpr (by norm_num [dot])
    have n2 : ¬ passTest (some ((0 : ℝ), (0 : ℝ), (-1 : ℝ)))
        ((0 : ℝ), (0 : ℝ), ((1001 : ℝ) / 1000)) :=
      passTest_fails_neg (by norm_num [dot])
    simp only [passCount, List.map_cons, List.map_nil, List.sum_cons, List.sum_nil]
    rw [if_pos p0, if_pos p1, if_neg n2]
    rfl
  have k3 : passCount [(((1001 : ℝ) / 1000), (0 : ℝ), (0 : ℝ)),
      ((0 : ℝ), ((1001 : ℝ) / 1000), (0 : ℝ)), ((0 : ℝ), (0 : ℝ), ((1001 : ℝ) / 1000))]
      (some ((1 : ℝ), (0 : ℝ), (0 : ℝ))) = 2 := by
    have n0 : ¬ passTest (some ((1 : ℝ), (0 : ℝ), (0 : ℝ)))
        (((1001 : ℝ) / 1000), (0 : ℝ), (0 : ℝ)) :=
      passTest_fails_above_one (by norm_num [dot])
    have p1 := (passTest_some_iff ((1 : ℝ), (0 : ℝ), (0 : ℝ))
      ((0 : ℝ), ((1001 : ℝ) / 1000), (0 : ℝ))).mpr (by norm_num [dot])
    have p2 := (passTest_some_iff ((1 : ℝ), (0 : ℝ), (0 : ℝ))
      ((0 : ℝ), (0 : ℝ), ((1001 : ℝ) / 1000))).mpr (by norm_num [dot])
    simp only [passCount, List.map_cons, List.map_nil, List.sum_cons, List.sum_nil]
    rw [if_neg n0, if_pos p1, if_pos p2]
    rfl
  have k4 : passCount [(((1001 : ℝ) / 1000), (0 : ℝ), (0 : ℝ)),
      ((0 : ℝ), ((1001 : ℝ) / 1000), (0 : ℝ)), ((0 : ℝ), (0 : ℝ), ((1001 : ℝ) / 1000))]
      (some ((0 : ℝ), (1 : ℝ), (0 : ℝ))) = 2 := by
    have p0 := (passTest_some_iff ((0 : ℝ), (1 : ℝ), (0 : ℝ))
      (((1001 : ℝ) / 1000), (0 : ℝ), (0 : ℝ))).mpr (by norm_num [dot])
    have n1 : ¬ passTest (some ((0 : ℝ), (1 : ℝ), (0 : ℝ)))
        ((0 : ℝ), ((1001 : ℝ) / 1000), (0 : ℝ)) :=
      passTest_fails_above_one (by norm_num [dot])
    have p2 := (passTest_some_iff ((0 : ℝ), (1 : ℝ), (0 : ℝ))
      ((0 : ℝ), (0 : ℝ), ((1001 : ℝ) / 1000))).mpr (by norm_num [dot])
    simp only [passCount, List.map_cons, List.map_nil, List.sum_cons, List.sum_nil]
    rw [if_pos p0, if_neg n1, if_pos p2]
    rfl
  have k5 : passCount [(((1001 : ℝ) / 1000), (0 : ℝ), (0 : ℝ)),
      ((0 : ℝ), ((1001 : ℝ) / 1000), (0 : ℝ)), ((0 : ℝ), (0 : ℝ), ((1001 : ℝ) / 1000))]
      (some ((-1 : ℝ), (0 : ℝ), (0 : ℝ))) = 2 := by
    have n0 : ¬ passTest (some ((-1 : ℝ), (0 : ℝ), (0 : ℝ)))
        (((1001 : ℝ) / 1000), (0 : ℝ), (0 : ℝ)) :=
      passTest_fails_neg (by norm_num [dot])
    have p1 := (passTest_some_iff ((-1 : ℝ), (0 : ℝ), (0 : ℝ))
      ((0 : ℝ), ((1001 : ℝ) / 1000), (0 : ℝ))).mpr (by norm_num [dot])
    have p2 := (passTest_some_iff ((-1 : ℝ), (0 : ℝ), (0 : ℝ))
      ((0 : ℝ), (0 : ℝ), ((1001 : ℝ) / 1000))).mpr (by norm_num [dot])
    simp only [passCount, List.map_cons, List.map_nil, List.sum_cons, List.sum_nil]
    rw [if_neg n0, if_pos p1, if_pos p2]
    rfl
  have hvd : hemiVerdict [(((1001 : ℝ) / 1000), (0 : ℝ), (0 : ℝ)),
      ((0 : ℝ), ((1001 : ℝ) / 1000), (0 : ℝ)), ((0 : ℝ), (0 : ℝ), ((1001 : ℝ) / 1000))] = false := by
    rw [hemiVerdict]
    apply decide_eq_false
    rw [hcand, List.map_cons, List.map_cons, List.map_cons, List.map_cons, List.map_cons,
      List.map_cons, List.map_nil, k0, k1, k2, k3, k4, k5]
    simp
  have hpole : hemiPole [(((1001 : ℝ) / 1000), (0 : ℝ), (0 : ℝ)),
      ((0 : ℝ), ((1001 : ℝ) / 1000), (0 : ℝ)), ((0 : ℝ), (0 : ℝ), ((1001 : ℝ) / 1000))] =
      some (0, 0, 0) := by
    rw [hemiPole, hvd]
    simp
  unfold is_hemispherical
  rw [if_neg (by simp)]
  rw [if_neg (not_not_intro hall)]
  rw [if_neg (by
    rw [show List.map toVec3 [[(1001 : ℝ) / 1000, 0, 0], [(0 : ℝ), 1001 / 1000, 0],
        [(0 : ℝ), 0, 1001 / 1000]] =
      [(((1001 : ℝ) / 1000), (0 : ℝ), (0 : ℝ)), ((0 : ℝ), ((1001 : ℝ) / 1000), (0 : ℝ)),
        ((0 : ℝ), (0 : ℝ), ((1001 : ℝ) / 1000))] from rfl, hpairs]
    simp)]
  rw [show List.map toVec3 [[(1001 : ℝ) / 1000, 0, 0], [(0 : ℝ), 1001 / 1000, 0],
      [(0 : ℝ), 0, 1001 / 1000]] =
    [(((1001 : ℝ) / 1000), (0 : ℝ), (0 : ℝ)), ((0 : ℝ), ((1001 : ℝ) / 1000), (0 : ℝ)),
      ((0 : ℝ), (0 : ℝ), ((1001 : ℝ) / 1000))] from rfl]
  rw [hvd, hpole]

end PreAFQ
